import Mathlib

/-!
Shallow embedding of `core/consensus/slots/src/aux_schema.rs`: the
`check_equivocation` operation of the slots aux-db schema, with its
age short-circuit, duplicate/equivocation scan and pruning policy.

Two views of the same function are defined and proved to agree
(`check_equivocation_abs_correct`):

* `check_equivocation` runs over `Store`, whose cells record the observable
  outcome of `backend.get_aux` plus `Decode::decode` at each key
  (missing / stored / corrupt / unavailable) and whether `insert_aux`
  succeeds; it returns a `ClientResult` like the source.
* `check_equivocation_abs` runs over `StoreA`, the data-model view in which
  every read succeeds (slot index as a partial map plus optional watermark);
  it is the restriction of the former to stores with no failing cells.
-/

/-- We keep at least this number of slots in database (`MAX_SLOT_CAPACITY`). -/
def MAX_SLOT_CAPACITY : Nat := 1000

/-- We prune slots when they reach this number (`PRUNING_BOUND = 2 * MAX_SLOT_CAPACITY`). -/
def PRUNING_BOUND : Nat := 2 * MAX_SLOT_CAPACITY

/-- The modulus of `u64` arithmetic. -/
def U64 : Nat := 2 ^ 64

/-- Wrapping `u64` subtraction (the semantics of `a - b` on `u64` values
`a, b < U64`).  Models the subtractions `slot_now - slot` (source line 88)
and `slot_now - first_saved_slot` (source line 128). -/
def wsub (a b : Nat) : Nat := (U64 + a - b) % U64

/-- Aux-db keys touched by this module: `slotKey s` is
`SLOT_HEADER_MAP_KEY ++ encode(s)` (the SCALE encoding of a `u64` is a
fixed-width injective byte encoding, so per-slot keys are in bijection with
slots and never collide with the watermark key), and `startKey` is
`SLOT_HEADER_START`. -/
inductive Key where
  | slotKey (s : Nat)
  | startKey
deriving DecidableEq

/-- Represents an equivocation proof (source lines 47-53). -/
structure EquivocationProof (H : Type) where
  slot : Nat
  fst_header : H
  snd_header : H
deriving DecidableEq

/-- Abstraction of `client::error::Error`: the corruption error built by
`load_decode`, or an opaque error returned by the backend store itself and
propagated by the `?` operator. -/
inductive ClientError where
  | backend (msg : String)
  | storeUnavailable
deriving DecidableEq

/-- Observable state of one aux-db key, from the point of view of
`load_decode`: the key may be absent (`get_aux` returns `Ok(None)`), hold
bytes that decode to `a`, hold bytes that fail to decode, or the backend
read itself may fail. -/
inductive Cell (α : Type) where
  | missing
  | stored (a : α)
  | corrupt
  | unavailable
deriving DecidableEq

/-- Whether reading this cell through `load_decode` produces an error. -/
def Cell.readErr {α : Type} : Cell α → Bool
  | .corrupt => true
  | .unavailable => true
  | _ => false

/-- The entry list a readable cell decodes to (`[]` for a missing key,
mirroring `.unwrap_or_else(Vec::new)`); meaningful when `readErr` is false. -/
def Cell.orEmpty {α : Type} : Cell (List α) → List α
  | .stored l => l
  | _ => []

/-- Source lines 32-45: `load_decode` turns a backend read into
`Ok(None)` when the key is absent, `Ok(Some(t))` on a successful decode,
the corruption error when the stored bytes fail to decode, and propagates
a backend read failure. -/
def load_decode {α : Type} (c : Cell α) : Except ClientError (Option α) :=
  match c with
  | .missing => .ok none
  | .stored a => .ok (some a)
  | .corrupt => .error (ClientError.backend ("Slots DB is corrupted."))
  | .unavailable => .error ClientError.storeUnavailable

/-- The aux store as seen through the two kinds of keys this module uses:
a cell per slot key, the watermark cell, and whether `insert_aux` succeeds. -/
structure Store (H P : Type) where
  slots : Nat → Cell (List (H × P))
  start : Cell Nat
  insertOk : Bool

/-- Result of one `check_equivocation` call: the returned `ClientResult`,
the store after the call, the keys read through `load_decode` in order,
whether `insert_aux` was invoked, and the `keys_to_delete` list passed to it. -/
structure CallOut (H P : Type) where
  result : Except ClientError (Option (EquivocationProof H))
  store : Store H P
  reads : List Key
  insertCalled : Bool
  deletedKeys : List Key

/-- The `for (prev_header, prev_signer) in headers_with_sig.iter()` loop of
source lines 105-123: `some r` models an early `return Ok(r)`, `none` models
falling through to the recording step.  `hash` stands for `Header::hash`. -/
def scanHeaders {H P : Type} [DecidableEq P] (hash : H → Nat) (slot : Nat)
    (header : H) (signer : P) : List (H × P) → Option (Option (EquivocationProof H))
  | [] => none
  | (prev_header, prev_signer) :: rest =>
    if prev_signer = signer then
      if hash header ≠ hash prev_header then
        some (some ⟨slot, prev_header, header⟩)
      else
        some none
    else
      scanHeaders hash slot header signer rest

/-- Source lines 75-150, `check_equivocation`:
age short-circuit, read of the slot entry list and of the first saved slot,
equivocation/duplicate scan, pruning decision, append and atomic batched
write.  The post-store applies the two insertions and the deletions of the
single `insert_aux` call (a deleted key ends up absent; deletions are applied
after insertions in the backend transaction, and the deleted range never
contains the written keys for `u64` inputs). -/
def check_equivocation {H P : Type} [DecidableEq P] (hash : H → Nat)
    (backend : Store H P) (slot_now slot : Nat) (header : H) (signer : P) :
    CallOut H P :=
  if wsub slot_now slot > MAX_SLOT_CAPACITY then
    ⟨.ok none, backend, [], false, []⟩
  else
    match load_decode (backend.slots slot) with
    | .error e => ⟨.error e, backend, [Key.slotKey slot], false, []⟩
    | .ok mlist =>
      let headers_with_sig := mlist.getD []
      match load_decode backend.start with
      | .error e => ⟨.error e, backend, [Key.slotKey slot, Key.startKey], false, []⟩
      | .ok mstart =>
        let first_saved_slot := mstart.getD slot
        match scanHeaders hash slot header signer headers_with_sig with
        | some r => ⟨.ok r, backend, [Key.slotKey slot, Key.startKey], false, []⟩
        | none =>
          let new_first_saved_slot :=
            if wsub slot_now first_saved_slot ≥ PRUNING_BOUND then
              slot_now - MAX_SLOT_CAPACITY
            else
              first_saved_slot
          let keys_to_delete :=
            if wsub slot_now first_saved_slot ≥ PRUNING_BOUND then
              (List.range' first_saved_slot
                (new_first_saved_slot - first_saved_slot)).map Key.slotKey
            else
              []
          if backend.insertOk then
            ⟨.ok none,
             ⟨fun u =>
                if Key.slotKey u ∈ keys_to_delete then Cell.missing
                else if u = slot then
                  Cell.stored (headers_with_sig ++ [(header, signer)])
                else backend.slots u,
              Cell.stored new_first_saved_slot,
              backend.insertOk⟩,
             [Key.slotKey slot, Key.startKey], true, keys_to_delete⟩
          else
            ⟨.error ClientError.storeUnavailable, backend,
             [Key.slotKey slot, Key.startKey], true, keys_to_delete⟩

/-- The data-model view of the aux store (every read succeeds): the slot
index as a partial map from slots to entry lists, and the optional
retention watermark. -/
structure StoreA (H P : Type) where
  slots : Nat → Option (List (H × P))
  start : Option Nat

/-- Result of one `check_equivocation` call on the data-model view. -/
structure CallOutA (H P : Type) where
  result : Option (EquivocationProof H)
  store : StoreA H P
  reads : List Key
  insertCalled : Bool
  deletedKeys : List Key

/-- `check_equivocation` restricted to stores whose reads all succeed:
same control flow as `check_equivocation`, with `load_decode` replaced by
the direct lookup.  `check_equivocation_abs_correct` proves the agreement. -/
def check_equivocation_abs {H P : Type} [DecidableEq P] (hash : H → Nat)
    (backend : StoreA H P) (slot_now slot : Nat) (header : H) (signer : P) :
    CallOutA H P :=
  if wsub slot_now slot > MAX_SLOT_CAPACITY then
    ⟨none, backend, [], false, []⟩
  else
    let headers_with_sig := (backend.slots slot).getD []
    let first_saved_slot := (backend.start).getD slot
    match scanHeaders hash slot header signer headers_with_sig with
    | some r => ⟨r, backend, [Key.slotKey slot, Key.startKey], false, []⟩
    | none =>
      let new_first_saved_slot :=
        if wsub slot_now first_saved_slot ≥ PRUNING_BOUND then
          slot_now - MAX_SLOT_CAPACITY
        else
          first_saved_slot
      let keys_to_delete :=
        if wsub slot_now first_saved_slot ≥ PRUNING_BOUND then
          (List.range' first_saved_slot
            (new_first_saved_slot - first_saved_slot)).map Key.slotKey
        else
          []
      ⟨none,
       ⟨fun u =>
          if Key.slotKey u ∈ keys_to_delete then none
          else if u = slot then
            some (headers_with_sig ++ [(header, signer)])
          else backend.slots u,
        some new_first_saved_slot⟩,
       [Key.slotKey slot, Key.startKey], true, keys_to_delete⟩

/-- A cell holding exactly what the data-model view records. -/
def cellOfOption {α : Type} : Option α → Cell α
  | none => Cell.missing
  | some a => Cell.stored a

/-- The cell-level store denoted by a data-model store: every cell readable,
`insert_aux` succeeding. -/
def StoreA.toStore {H P : Type} (σ : StoreA H P) : Store H P :=
  ⟨fun u => cellOfOption (σ.slots u), cellOfOption σ.start, true⟩

/-- The empty aux store: nothing ever written. -/
def StoreA.empty {H P : Type} : StoreA H P :=
  ⟨fun _ => none, none⟩

/-- Store states reachable from the empty store by successful
`check_equivocation` calls whose `slot_now` is a `u64` value and whose
`slot` is at least the stored watermark at the time of the call (when set).
On the data-model view every call succeeds, so each step is one successful
call. -/
inductive ReachableW {H P : Type} [DecidableEq P] (hash : H → Nat) : StoreA H P → Prop where
  | empty : ReachableW hash StoreA.empty
  | step (σ : StoreA H P) (slot_now slot : Nat) (header : H) (signer : P) :
      ReachableW hash σ →
      slot_now < U64 →
      (∀ w, σ.start = some w → w ≤ slot) →
      ReachableW hash ((check_equivocation_abs hash σ slot_now slot header signer).store)

/-- Wrapping subtraction computes the exact difference when it does not
underflow and the minuend is a `u64` value. -/
theorem wsub_eq_of_le {a b : Nat} (hba : b ≤ a) (ha : a < U64) : wsub a b = a - b := by
  unfold wsub
  rw [Nat.add_sub_assoc hba, Nat.add_mod_left]
  exact Nat.mod_eq_of_lt (lt_of_le_of_lt (Nat.sub_le a b) ha)

/-- The scan falls through to the recording step exactly when no stored
entry was produced by the incoming signer. -/
theorem scanHeaders_eq_none_iff {H P : Type} [DecidableEq P] (hash : H → Nat)
    (slot : Nat) (header : H) (signer : P) (l : List (H × P)) :
    scanHeaders hash slot header signer l = none ↔ ∀ e ∈ l, e.2 ≠ signer := by
  induction l with
  | nil => simp [scanHeaders]
  | cons a rest ih =>
    obtain ⟨ph, ps⟩ := a
    by_cases hps : ps = signer
    · subst hps
      by_cases hh : hash header ≠ hash ph <;> simp [scanHeaders, hh]
    · simp [scanHeaders, hps, ih]

/-- Entries from other signers are skipped by the scan. -/
theorem scanHeaders_append {H P : Type} [DecidableEq P] (hash : H → Nat)
    (slot : Nat) (header : H) (signer : P) (l1 l2 : List (H × P))
    (h1 : ∀ e ∈ l1, e.2 ≠ signer) :
    scanHeaders hash slot header signer (l1 ++ l2) =
      scanHeaders hash slot header signer l2 := by
  induction l1 with
  | nil => rfl
  | cons a rest ih =>
    obtain ⟨ph, ps⟩ := a
    have hps : ps ≠ signer := h1 (ph, ps) (List.mem_cons_self _ _)
    simp only [List.cons_append, scanHeaders, if_neg hps]
    exact ih (fun e he => h1 e (List.mem_cons_of_mem _ he))

/-- A slot that passes the age check lies at or above `slot_now - MAX_SLOT_CAPACITY`. -/
theorem slot_ge_new {t s : Nat} (ht : t < U64)
    (hage : ¬ wsub t s > MAX_SLOT_CAPACITY) : t - MAX_SLOT_CAPACITY ≤ s := by
  rcases Nat.le_total s t with hst | hts
  · rw [wsub_eq_of_le hst ht] at hage
    simp only [MAX_SLOT_CAPACITY] at hage ⊢
    omega
  · exact le_trans (Nat.sub_le t _) hts

/-- A slot outside the half-open range is not among its per-slot keys. -/
theorem slotKey_not_deleted {fss n s : Nat} (h : ¬ (fss ≤ s ∧ s < fss + n)) :
    Key.slotKey s ∉ (List.range' fss n).map Key.slotKey := by
  intro hmem
  rcases List.mem_map.1 hmem with ⟨x, hx, hxs⟩
  have hxe : x = s := by injection hxs
  subst hxe
  exact h (List.mem_range'_1.1 hx)

/-- Equation for the age short-circuit branch of `check_equivocation_abs`. -/
theorem check_abs_age {H P : Type} [DecidableEq P] (hash : H → Nat) (σ : StoreA H P)
    (t s : Nat) (h : H) (p : P) (hage : wsub t s > MAX_SLOT_CAPACITY) :
    check_equivocation_abs hash σ t s h p = ⟨none, σ, [], false, []⟩ := by
  unfold check_equivocation_abs
  rw [if_pos hage]

/-- Equation for the early-return branches of the scan. -/
theorem check_abs_scan_some {H P : Type} [DecidableEq P] (hash : H → Nat) (σ : StoreA H P)
    (t s : Nat) (h : H) (p : P) (r : Option (EquivocationProof H))
    (hage : ¬ wsub t s > MAX_SLOT_CAPACITY)
    (hscan : scanHeaders hash s h p ((σ.slots s).getD []) = some r) :
    check_equivocation_abs hash σ t s h p =
      ⟨r, σ, [Key.slotKey s, Key.startKey], false, []⟩ := by
  unfold check_equivocation_abs
  rw [if_neg hage]
  simp only [hscan]

/-- Equation for the recording branch of `check_equivocation_abs`. -/
theorem check_abs_insert {H P : Type} [DecidableEq P] (hash : H → Nat) (σ : StoreA H P)
    (t s : Nat) (h : H) (p : P)
    (hage : ¬ wsub t s > MAX_SLOT_CAPACITY)
    (hscan : scanHeaders hash s h p ((σ.slots s).getD []) = none) :
    check_equivocation_abs hash σ t s h p =
      ⟨none,
       ⟨fun u =>
          if Key.slotKey u ∈
              (if wsub t ((σ.start).getD s) ≥ PRUNING_BOUND then
                (List.range' ((σ.start).getD s)
                  ((t - MAX_SLOT_CAPACITY) - (σ.start).getD s)).map Key.slotKey
              else []) then none
          else if u = s then some (((σ.slots s).getD []) ++ [(h, p)])
          else σ.slots u,
        some (if wsub t ((σ.start).getD s) ≥ PRUNING_BOUND then
                t - MAX_SLOT_CAPACITY
              else (σ.start).getD s)⟩,
       [Key.slotKey s, Key.startKey], true,
       (if wsub t ((σ.start).getD s) ≥ PRUNING_BOUND then
          (List.range' ((σ.start).getD s)
            ((t - MAX_SLOT_CAPACITY) - (σ.start).getD s)).map Key.slotKey
        else [])⟩ := by
  unfold check_equivocation_abs
  rw [if_neg hage]
  simp only [hscan]
  by_cases hpb : wsub t ((σ.start).getD s) ≥ PRUNING_BOUND <;>
    simp only [hpb, if_pos, if_neg, if_true, if_false]

/-- The recording step is reached exactly when the age check passes and the
scan finds no entry from the signer. -/
theorem insertCalled_iff {H P : Type} [DecidableEq P] (hash : H → Nat) (σ : StoreA H P)
    (t s : Nat) (h : H) (p : P) :
    (check_equivocation_abs hash σ t s h p).insertCalled = true ↔
      (¬ wsub t s > MAX_SLOT_CAPACITY ∧
        scanHeaders hash s h p ((σ.slots s).getD []) = none) := by
  by_cases hage : wsub t s > MAX_SLOT_CAPACITY
  · rw [check_abs_age hash σ t s h p hage]
    simp [hage]
  · rcases hsc : scanHeaders hash s h p ((σ.slots s).getD []) with _ | r
    · rw [check_abs_insert hash σ t s h p hage hsc]
      simp [hage]
    · rw [check_abs_scan_some hash σ t s h p r hage hsc]
      simp [hage, hsc]

/-- Mapping an optional value to its cell commutes with branching. -/
theorem cellOfOption_ite {α : Type} (c : Prop) [Decidable c] (x y : Option α) :
    cellOfOption (if c then x else y) = if c then cellOfOption x else cellOfOption y := by
  split <;> rfl

/-- A missing value denotes a missing cell. -/
theorem cellOfOption_none {α : Type} : cellOfOption (none : Option α) = Cell.missing := rfl

/-- A present value denotes a stored cell. -/
theorem cellOfOption_some {α : Type} (a : α) : cellOfOption (some a) = Cell.stored a := rfl

/-- On a store whose reads all succeed, `check_equivocation` is exactly
`check_equivocation_abs` with the result wrapped in `Ok`. -/
theorem check_equivocation_abs_correct {H P : Type} [DecidableEq P] (hash : H → Nat)
    (σ : StoreA H P) (t s : Nat) (h : H) (p : P) :
    check_equivocation hash σ.toStore t s h p =
      ⟨.ok (check_equivocation_abs hash σ t s h p).result,
       (check_equivocation_abs hash σ t s h p).store.toStore,
       (check_equivocation_abs hash σ t s h p).reads,
       (check_equivocation_abs hash σ t s h p).insertCalled,
       (check_equivocation_abs hash σ t s h p).deletedKeys⟩ := by
  have hslot : load_decode ((σ.toStore).slots s) = .ok (σ.slots s) := by
    cases hc : σ.slots s <;> simp [StoreA.toStore, cellOfOption, hc, load_decode]
  have hstart : load_decode ((σ.toStore).start) = .ok σ.start := by
    cases hc : σ.start <;> simp [StoreA.toStore, cellOfOption, hc, load_decode]
  by_cases hage : wsub t s > MAX_SLOT_CAPACITY
  · rw [check_abs_age hash σ t s h p hage]
    unfold check_equivocation
    rw [if_pos hage]
  · rcases hsc : scanHeaders hash s h p ((σ.slots s).getD []) with _ | r
    · rw [check_abs_insert hash σ t s h p hage hsc]
      unfold check_equivocation
      rw [if_neg hage]
      simp only [hslot, hstart, hsc]
      have hok : (σ.toStore).insertOk = true := rfl
      simp only [hok, if_true]
      by_cases hpb : wsub t ((σ.start).getD s) ≥ PRUNING_BOUND
      · simp only [hpb, ite_true, CallOut.mk.injEq, Store.mk.injEq, StoreA.toStore,
          cellOfOption_ite, cellOfOption_none, cellOfOption_some]
      · simp only [hpb, ite_false, CallOut.mk.injEq, Store.mk.injEq, StoreA.toStore,
          cellOfOption_ite, cellOfOption_none, cellOfOption_some]
    · rw [check_abs_scan_some hash σ t s h p r hage hsc]
      unfold check_equivocation
      rw [if_neg hage]
      simp only [hslot, hstart, hsc]

/-- Equation for the age short-circuit branch (source lines 87-90). -/
theorem check_cell_age {H P : Type} [DecidableEq P] (hash : H → Nat) (σ : Store H P)
    (t s : Nat) (h : H) (p : P) (hage : wsub t s > MAX_SLOT_CAPACITY) :
    check_equivocation hash σ t s h p = ⟨.ok none, σ, [], false, []⟩ := by
  unfold check_equivocation
  rw [if_pos hage]

/-- Equation for a failing read of the slot entry list. -/
theorem check_cell_slot_err {H P : Type} [DecidableEq P] (hash : H → Nat) (σ : Store H P)
    (t s : Nat) (h : H) (p : P) (e : ClientError)
    (hage : ¬ wsub t s > MAX_SLOT_CAPACITY)
    (hml : load_decode (σ.slots s) = .error e) :
    check_equivocation hash σ t s h p = ⟨.error e, σ, [Key.slotKey s], false, []⟩ := by
  unfold check_equivocation
  rw [if_neg hage]
  simp only [hml]

/-- Equation for a failing read of the first saved slot. -/
theorem check_cell_start_err {H P : Type} [DecidableEq P] (hash : H → Nat) (σ : Store H P)
    (t s : Nat) (h : H) (p : P) (ml : Option (List (H × P))) (e : ClientError)
    (hage : ¬ wsub t s > MAX_SLOT_CAPACITY)
    (hml : load_decode (σ.slots s) = .ok ml)
    (hms : load_decode σ.start = .error e) :
    check_equivocation hash σ t s h p =
      ⟨.error e, σ, [Key.slotKey s, Key.startKey], false, []⟩ := by
  unfold check_equivocation
  rw [if_neg hage]
  simp only [hml, hms]

/-- Equation for the early returns of the scan (cell level). -/
theorem check_cell_scan_some {H P : Type} [DecidableEq P] (hash : H → Nat) (σ : Store H P)
    (t s : Nat) (h : H) (p : P) (ml : Option (List (H × P))) (ms : Option Nat)
    (r : Option (EquivocationProof H))
    (hage : ¬ wsub t s > MAX_SLOT_CAPACITY)
    (hml : load_decode (σ.slots s) = .ok ml)
    (hms : load_decode σ.start = .ok ms)
    (hsc : scanHeaders hash s h p (ml.getD []) = some r) :
    check_equivocation hash σ t s h p =
      ⟨.ok r, σ, [Key.slotKey s, Key.startKey], false, []⟩ := by
  unfold check_equivocation
  rw [if_neg hage]
  simp only [hml, hms, hsc]

/-- The recording branch with a succeeding `insert_aux` returns clean. -/
theorem check_cell_insert_ok {H P : Type} [DecidableEq P] (hash : H → Nat) (σ : Store H P)
    (t s : Nat) (h : H) (p : P) (ml : Option (List (H × P))) (ms : Option Nat)
    (hage : ¬ wsub t s > MAX_SLOT_CAPACITY)
    (hml : load_decode (σ.slots s) = .ok ml)
    (hms : load_decode σ.start = .ok ms)
    (hsc : scanHeaders hash s h p (ml.getD []) = none)
    (hok : σ.insertOk = true) :
    (check_equivocation hash σ t s h p).result = .ok none ∧
      (check_equivocation hash σ t s h p).insertCalled = true := by
  unfold check_equivocation
  rw [if_neg hage]
  simp [hml, hms, hsc, hok]

/-- The recording branch with a failing `insert_aux` propagates the failure. -/
theorem check_cell_insert_fail {H P : Type} [DecidableEq P] (hash : H → Nat) (σ : Store H P)
    (t s : Nat) (h : H) (p : P) (ml : Option (List (H × P))) (ms : Option Nat)
    (hage : ¬ wsub t s > MAX_SLOT_CAPACITY)
    (hml : load_decode (σ.slots s) = .ok ml)
    (hms : load_decode σ.start = .ok ms)
    (hsc : scanHeaders hash s h p (ml.getD []) = none)
    (hok : σ.insertOk = false) :
    (check_equivocation hash σ t s h p).result = .error ClientError.storeUnavailable ∧
      (check_equivocation hash σ t s h p).insertCalled = true ∧
      (check_equivocation hash σ t s h p).store = σ := by
  unfold check_equivocation
  rw [if_neg hage]
  simp [hml, hms, hsc, hok]

/-- C4: a call with `slot_now - slot > MAX_SLOT_CAPACITY` returns `Ok(None)`
without performing any store read or write, whatever the prior store state:
the result is clean, the store is unchanged, no key is read, `insert_aux` is
not invoked and nothing is deleted. -/
theorem c4_age_short_circuit {H P : Type} [DecidableEq P] (hash : H → Nat)
    (σ : Store H P) (t s : Nat) (h : H) (p : P)
    (hage : wsub t s > MAX_SLOT_CAPACITY) :
    (check_equivocation hash σ t s h p).result = .ok none ∧
      (check_equivocation hash σ t s h p).store = σ ∧
      (check_equivocation hash σ t s h p).reads = [] ∧
      (check_equivocation hash σ t s h p).insertCalled = false ∧
      (check_equivocation hash σ t s h p).deletedKeys = [] := by
  rw [check_cell_age hash σ t s h p hage]
  exact ⟨rfl, rfl, rfl, rfl, rfl⟩

/-- Witness for C4 on a concrete fully corrupted store. -/
theorem c4_age_short_circuit_witness :
    wsub 3000 0 > MAX_SLOT_CAPACITY ∧
      ((check_equivocation (fun n => n)
          (⟨fun _ => Cell.corrupt, Cell.corrupt, false⟩ : Store Nat Nat)
          3000 0 0 0).result = .ok none ∧
        (check_equivocation (fun n => n)
          (⟨fun _ => Cell.corrupt, Cell.corrupt, false⟩ : Store Nat Nat)
          3000 0 0 0).store = ⟨fun _ => Cell.corrupt, Cell.corrupt, false⟩ ∧
        (check_equivocation (fun n => n)
          (⟨fun _ => Cell.corrupt, Cell.corrupt, false⟩ : Store Nat Nat)
          3000 0 0 0).reads = [] ∧
        (check_equivocation (fun n => n)
          (⟨fun _ => Cell.corrupt, Cell.corrupt, false⟩ : Store Nat Nat)
          3000 0 0 0).insertCalled = false ∧
        (check_equivocation (fun n => n)
          (⟨fun _ => Cell.corrupt, Cell.corrupt, false⟩ : Store Nat Nat)
          3000 0 0 0).deletedKeys = []) :=
  ⟨by decide,
   c4_age_short_circuit (fun n => n) ⟨fun _ => Cell.corrupt, Cell.corrupt, false⟩
     3000 0 0 0 (by decide)⟩

/-- C5: whenever `check_equivocation` returns `Ok(Some(proof))` it performs
no store write: `insert_aux` is not invoked, nothing is deleted, and the
store after the call is the store before it. -/
theorem c5_proof_implies_no_write {H P : Type} [DecidableEq P] (hash : H → Nat)
    (σ : Store H P) (t s : Nat) (h : H) (p : P) (pr : EquivocationProof H)
    (hres : (check_equivocation hash σ t s h p).result = .ok (some pr)) :
    (check_equivocation hash σ t s h p).store = σ ∧
      (check_equivocation hash σ t s h p).insertCalled = false ∧
      (check_equivocation hash σ t s h p).deletedKeys = [] := by
  by_cases hage : wsub t s > MAX_SLOT_CAPACITY
  · rw [check_cell_age hash σ t s h p hage] at hres
    exact absurd hres (by simp)
  · rcases hml : load_decode (σ.slots s) with e | ml
    · rw [check_cell_slot_err hash σ t s h p e hage hml] at hres
      exact absurd hres (by simp)
    · rcases hms : load_decode σ.start with e | ms
      · rw [check_cell_start_err hash σ t s h p ml e hage hml hms] at hres
        exact absurd hres (by simp)
      · rcases hsc : scanHeaders hash s h p (ml.getD []) with _ | r
        · rcases hok : σ.insertOk with _ | _
          · rw [(check_cell_insert_fail hash σ t s h p ml ms hage hml hms hsc hok).1] at hres
            exact absurd hres (by simp)
          · rw [(check_cell_insert_ok hash σ t s h p ml ms hage hml hms hsc hok).1] at hres
            exact absurd hres (by simp)
        · rw [check_cell_scan_some hash σ t s h p ml ms r hage hml hms hsc] at hres ⊢
          exact ⟨rfl, rfl, rfl⟩

/-- Witness for C5 at a store holding a conflicting header. -/
theorem c5_proof_implies_no_write_witness :
    ((check_equivocation (fun n => n)
        (⟨fun u => if u = 2 then Cell.stored [(1, 0)] else Cell.missing,
          Cell.missing, true⟩ : Store Nat Nat)
        2 2 0 0).result = .ok (some ⟨2, 1, 0⟩) ∧
      (check_equivocation (fun n => n)
        (⟨fun u => if u = 2 then Cell.stored [(1, 0)] else Cell.missing,
          Cell.missing, true⟩ : Store Nat Nat)
        2 2 0 0).store =
        ⟨fun u => if u = 2 then Cell.stored [(1, 0)] else Cell.missing,
          Cell.missing, true⟩ ∧
      (check_equivocation (fun n => n)
        (⟨fun u => if u = 2 then Cell.stored [(1, 0)] else Cell.missing,
          Cell.missing, true⟩ : Store Nat Nat)
        2 2 0 0).insertCalled = false) :=
  ⟨rfl,
   ((c5_proof_implies_no_write (fun n => n)
      ⟨fun u => if u = 2 then Cell.stored [(1, 0)] else Cell.missing,
        Cell.missing, true⟩ 2 2 0 0 ⟨2, 1, 0⟩ (by rfl)).1),
   ((c5_proof_implies_no_write (fun n => n)
      ⟨fun u => if u = 2 then Cell.stored [(1, 0)] else Cell.missing,
        Cell.missing, true⟩ 2 2 0 0 ⟨2, 1, 0⟩ (by rfl)).2.1)⟩

/-- C8: `check_equivocation` returns an error exactly when one of the store
operations it actually performs fails: the slot-list read, then the
watermark read, then (on the recording path) the batched write; a stored
value that fails to decode surfaces as the corruption-kind backend error
with message `Slots DB is corrupted.`; every error is propagated as `Err`
and no error path produces `Ok`. -/
theorem c8_error_characterization {H P : Type} [DecidableEq P] (hash : H → Nat)
    (σ : Store H P) (t s : Nat) (h : H) (p : P) :
    ((∃ e, (check_equivocation hash σ t s h p).result = .error e) ↔
      (¬ wsub t s > MAX_SLOT_CAPACITY ∧
        ((σ.slots s).readErr = true ∨
          ((σ.slots s).readErr = false ∧
            ((σ.start).readErr = true ∨
              ((σ.start).readErr = false ∧
                scanHeaders hash s h p (σ.slots s).orEmpty = none ∧
                σ.insertOk = false)))))) ∧
      (¬ wsub t s > MAX_SLOT_CAPACITY → σ.slots s = Cell.corrupt →
        (check_equivocation hash σ t s h p).result =
          .error (ClientError.backend ("Slots DB is corrupted."))) ∧
      (¬ wsub t s > MAX_SLOT_CAPACITY → (σ.slots s).readErr = false →
        σ.start = Cell.corrupt →
        (check_equivocation hash σ t s h p).result =
          .error (ClientError.backend ("Slots DB is corrupted."))) := by
  by_cases hage : wsub t s > MAX_SLOT_CAPACITY
  · rw [check_cell_age hash σ t s h p hage]
    simp [hage]
  · have haux : ∀ (ml : Option (List (H × P))) (ms : Option Nat),
        load_decode (σ.slots s) = .ok ml → load_decode σ.start = .ok ms →
        ((∃ e, (check_equivocation hash σ t s h p).result = .error e) ↔
          (scanHeaders hash s h p (ml.getD []) = none ∧ σ.insertOk = false)) := by
      intro ml ms hml hms
      rcases hsc : scanHeaders hash s h p (ml.getD []) with _ | r
      · rcases hok : σ.insertOk with _ | _
        · rw [(check_cell_insert_fail hash σ t s h p ml ms hage hml hms hsc hok).1]
          simp [hsc, hok]
        · rw [(check_cell_insert_ok hash σ t s h p ml ms hage hml hms hsc hok).1]
          simp [hsc, hok]
      · rw [check_cell_scan_some hash σ t s h p ml ms r hage hml hms hsc]
        simp [hsc]
    rcases hcs : σ.slots s with _ | l | _ | _
    · refine ⟨?_, fun _ hc => absurd hc (by simp), ?_⟩
      · rcases hst : σ.start with _ | w | _ | _
        · rw [haux none none (by rw [hcs]; rfl) (by rw [hst]; rfl)]
          simp [hage, hcs, hst, Cell.readErr, Cell.orEmpty]
        · rw [haux none (some w) (by rw [hcs]; rfl) (by rw [hst]; rfl)]
          simp [hage, hcs, hst, Cell.readErr, Cell.orEmpty]
        · rw [check_cell_start_err hash σ t s h p none
            (ClientError.backend ("Slots DB is corrupted.")) hage (by rw [hcs]; rfl)
            (by rw [hst]; rfl)]
          simp [hage, hcs, hst, Cell.readErr]
        · rw [check_cell_start_err hash σ t s h p none ClientError.storeUnavailable
            hage (by rw [hcs]; rfl) (by rw [hst]; rfl)]
          simp [hage, hcs, hst, Cell.readErr]
      · intro _ _ hst
        rw [check_cell_start_err hash σ t s h p none
          (ClientError.backend ("Slots DB is corrupted.")) hage (by rw [hcs]; rfl)
          (by rw [hst]; rfl)]
    · refine ⟨?_, fun _ hc => absurd hc (by simp), ?_⟩
      · rcases hst : σ.start with _ | w | _ | _
        · rw [haux (some l) none (by rw [hcs]; rfl) (by rw [hst]; rfl)]
          simp [hage, hcs, hst, Cell.readErr, Cell.orEmpty]
        · rw [haux (some l) (some w) (by rw [hcs]; rfl) (by rw [hst]; rfl)]
          simp [hage, hcs, hst, Cell.readErr, Cell.orEmpty]
        · rw [check_cell_start_err hash σ t s h p (some l)
            (ClientError.backend ("Slots DB is corrupted.")) hage (by rw [hcs]; rfl)
            (by rw [hst]; rfl)]
          simp [hage, hcs, hst, Cell.readErr]
        · rw [check_cell_start_err hash σ t s h p (some l)
            ClientError.storeUnavailable hage (by rw [hcs]; rfl) (by rw [hst]; rfl)]
          simp [hage, hcs, hst, Cell.readErr]
      · intro _ _ hst
        rw [check_cell_start_err hash σ t s h p (some l)
          (ClientError.backend ("Slots DB is corrupted.")) hage (by rw [hcs]; rfl)
          (by rw [hst]; rfl)]
    · rw [check_cell_slot_err hash σ t s h p
        (ClientError.backend ("Slots DB is corrupted.")) hage (by rw [hcs]; rfl)]
      simp [hage, hcs, Cell.readErr]
    · rw [check_cell_slot_err hash σ t s h p ClientError.storeUnavailable hage
        (by rw [hcs]; rfl)]
      simp [hage, hcs, Cell.readErr]

/-- Witness for C8: on a store whose slot cell fails to decode, the call
errors with the corruption message. -/
theorem c8_error_characterization_witness :
    (check_equivocation (fun n => n)
        (⟨fun _ => Cell.corrupt, Cell.missing, true⟩ : Store Nat Nat)
        5 5 0 0).result = .error (ClientError.backend ("Slots DB is corrupted.")) :=
  (c8_error_characterization (fun n => n)
    ⟨fun _ => Cell.corrupt, Cell.missing, true⟩ 5 5 0 0).2.1 (by decide) rfl

/-- C1 counterexample: the claim quantifies over every store state containing
an entry `(h1, p)` for slot `s`, but the scan returns on the FIRST entry whose
signer matches.  Here slot 5 holds `[(0, 0), (1, 0)]`, so with `h1 = 1`,
`h2 = 0` (hashes differ) and signer `0`, the call hits the earlier duplicate
`(0, 0)` and returns `Ok(None)` instead of the claimed proof. -/
theorem c1_counterexample :
    ((1, 0) ∈ ([((0 : Nat), (0 : Nat)), (1, 0)] : List (Nat × Nat))) ∧
      (fun n => n) (0 : Nat) ≠ (fun n => n) (1 : Nat) ∧
      wsub 5 5 ≤ MAX_SLOT_CAPACITY ∧
      (check_equivocation_abs (fun n => n)
        (⟨fun u => if u = 5 then some [(0, 0), (1, 0)] else none,
          some 5⟩ : StoreA Nat Nat) 5 5 0 0).result = none :=
  ⟨by decide, by decide, by decide, rfl⟩

/-- C1 (amended): if the first entry for signer `p` in slot `s`'s stored list
is `(h1, p)` and the incoming header `h2` has a different hash, a call within
the age bound returns `Ok(Some(proof))` with `slot = s`, `fst_header = h1`
(the stored header) and `snd_header = h2` (the incoming header). -/
theorem c1_detection_first_entry {H P : Type} [DecidableEq P] (hash : H → Nat)
    (σ : StoreA H P) (t s : Nat) (h1 h2 : H) (p : P) (l1 l2 : List (H × P))
    (hslots : σ.slots s = some (l1 ++ (h1, p) :: l2))
    (hfirst : ∀ e ∈ l1, e.2 ≠ p)
    (hhash : hash h2 ≠ hash h1)
    (hage : wsub t s ≤ MAX_SLOT_CAPACITY) :
    (check_equivocation_abs hash σ t s h2 p).result = some ⟨s, h1, h2⟩ := by
  have hagen : ¬ wsub t s > MAX_SLOT_CAPACITY := not_lt.mpr hage
  have hsc : scanHeaders hash s h2 p ((σ.slots s).getD []) =
      some (some ⟨s, h1, h2⟩) := by
    rw [hslots]
    simp only [Option.getD_some]
    rw [scanHeaders_append hash s h2 p l1 ((h1, p) :: l2) hfirst]
    simp [scanHeaders, hhash]
  rw [check_abs_scan_some hash σ t s h2 p (some ⟨s, h1, h2⟩) hagen hsc]

/-- Witness for the amended C1 at a concrete singleton store. -/
theorem c1_detection_first_entry_witness :
    (check_equivocation_abs (fun n => n)
        (⟨fun u => if u = 3 then some [(1, 0)] else none, none⟩ : StoreA Nat Nat)
        3 3 0 0).result = some ⟨3, 1, 0⟩ :=
  c1_detection_first_entry (fun n => n)
    ⟨fun u => if u = 3 then some [(1, 0)] else none, none⟩
    3 3 1 0 0 [] [] (by simp) (by simp) (by decide) (by decide)

/-- C2: once a call has recorded `(header, signer)` under `slot`, calling
again with the same slot, header and signer returns `Ok(None)` and performs
no store write: the store after the second call is exactly the store after
the first, `insert_aux` is not invoked and nothing is deleted. -/
theorem c2_resubmission_idempotent {H P : Type} [DecidableEq P] (hash : H → Nat)
    (σ : StoreA H P) (t1 t2 s : Nat) (h : H) (p : P)
    (ht1 : t1 < U64)
    (hrec : (check_equivocation_abs hash σ t1 s h p).insertCalled = true) :
    (check_equivocation_abs hash
        ((check_equivocation_abs hash σ t1 s h p).store) t2 s h p).result = none ∧
      (check_equivocation_abs hash
        ((check_equivocation_abs hash σ t1 s h p).store) t2 s h p).store =
        (check_equivocation_abs hash σ t1 s h p).store ∧
      (check_equivocation_abs hash
        ((check_equivocation_abs hash σ t1 s h p).store) t2 s h p).insertCalled =
        false ∧
      (check_equivocation_abs hash
        ((check_equivocation_abs hash σ t1 s h p).store) t2 s h p).deletedKeys =
        [] := by
  obtain ⟨hage1, hsc1⟩ := (insertCalled_iff hash σ t1 s h p).1 hrec
  have hmem : ¬ (Key.slotKey s ∈
      (if wsub t1 ((σ.start).getD s) ≥ PRUNING_BOUND then
        (List.range' ((σ.start).getD s)
          ((t1 - MAX_SLOT_CAPACITY) - (σ.start).getD s)).map Key.slotKey
      else [])) := by
    have hge := slot_ge_new ht1 hage1
    split
    · apply slotKey_not_deleted
      intro hc
      omega
    · simp
  have hstore : (check_equivocation_abs hash σ t1 s h p).store.slots s =
      some (((σ.slots s).getD []) ++ [(h, p)]) := by
    rw [check_abs_insert hash σ t1 s h p hage1 hsc1]
    show (if _ then _ else _) = _
    rw [if_neg hmem, if_pos rfl]
  by_cases hage2 : wsub t2 s > MAX_SLOT_CAPACITY
  · rw [check_abs_age hash _ t2 s h p hage2]
    exact ⟨rfl, rfl, rfl, rfl⟩
  · have hsc2 : scanHeaders hash s h p
        ((((check_equivocation_abs hash σ t1 s h p).store).slots s).getD []) =
        some none := by
      rw [hstore]
      simp only [Option.getD_some]
      rw [scanHeaders_append hash s h p _ [(h, p)]
        ((scanHeaders_eq_none_iff hash s h p _).1 hsc1)]
      simp [scanHeaders]
    rw [check_abs_scan_some hash _ t2 s h p none hage2 hsc2]
    exact ⟨rfl, rfl, rfl, rfl⟩

/-- Witness for C2: record once on the empty store, resubmit one slot later. -/
theorem c2_resubmission_idempotent_witness :
    (5 : Nat) < U64 ∧
      ((check_equivocation_abs (fun n => n)
          ((check_equivocation_abs (fun n => n) (StoreA.empty : StoreA Nat Nat)
            5 5 7 9).store) 6 5 7 9).result = none ∧
        (check_equivocation_abs (fun n => n)
          ((check_equivocation_abs (fun n => n) (StoreA.empty : StoreA Nat Nat)
            5 5 7 9).store) 6 5 7 9).store =
          (check_equivocation_abs (fun n => n) (StoreA.empty : StoreA Nat Nat)
            5 5 7 9).store ∧
        (check_equivocation_abs (fun n => n)
          ((check_equivocation_abs (fun n => n) (StoreA.empty : StoreA Nat Nat)
            5 5 7 9).store) 6 5 7 9).insertCalled = false ∧
        (check_equivocation_abs (fun n => n)
          ((check_equivocation_abs (fun n => n) (StoreA.empty : StoreA Nat Nat)
            5 5 7 9).store) 6 5 7 9).deletedKeys = []) :=
  ⟨by decide,
   c2_resubmission_idempotent (fun n => n) StoreA.empty 5 6 5 7 9 (by decide) (by rfl)⟩

/-- C3: on every call that reaches the recording step, if the pruning check
`slot_now - first_saved_slot >= PRUNING_BOUND` (the code's `u64` subtraction)
fires, the watermark written is `slot_now - MAX_SLOT_CAPACITY` (saturating at
zero, as `Nat` subtraction does) and exactly the per-slot keys for the
half-open range from the first saved slot up to the new watermark are deleted
in the batch; otherwise the watermark written equals the one read (or the
defaulted first slot) and no key is deleted. -/
theorem c3_pruning_watermark_and_keys {H P : Type} [DecidableEq P] (hash : H → Nat)
    (σ : StoreA H P) (t s : Nat) (h : H) (p : P)
    (hrec : (check_equivocation_abs hash σ t s h p).insertCalled = true) :
    (wsub t ((σ.start).getD s) ≥ PRUNING_BOUND →
      (check_equivocation_abs hash σ t s h p).store.start =
          some (t - MAX_SLOT_CAPACITY) ∧
        (check_equivocation_abs hash σ t s h p).deletedKeys =
          (List.range' ((σ.start).getD s)
            ((t - MAX_SLOT_CAPACITY) - (σ.start).getD s)).map Key.slotKey) ∧
      (¬ wsub t ((σ.start).getD s) ≥ PRUNING_BOUND →
        (check_equivocation_abs hash σ t s h p).store.start =
            some ((σ.start).getD s) ∧
          (check_equivocation_abs hash σ t s h p).deletedKeys = []) := by
  obtain ⟨hage, hsc⟩ := (insertCalled_iff hash σ t s h p).1 hrec
  rw [check_abs_insert hash σ t s h p hage hsc]
  constructor
  · intro hpb
    simp [hpb]
  · intro hpb
    simp [hpb]

/-- Witness for C3: a recording call on watermark 0 at time 2000 prunes. -/
theorem c3_pruning_watermark_and_keys_witness :
    (wsub 2000 (((some 0 : Option Nat)).getD 1500) ≥ PRUNING_BOUND →
      (check_equivocation_abs (fun n => n)
          (⟨fun _ => none, some 0⟩ : StoreA Nat Nat) 2000 1500 0 0).store.start =
          some (2000 - MAX_SLOT_CAPACITY) ∧
        (check_equivocation_abs (fun n => n)
          (⟨fun _ => none, some 0⟩ : StoreA Nat Nat) 2000 1500 0 0).deletedKeys =
          (List.range' (((some 0 : Option Nat)).getD 1500)
            ((2000 - MAX_SLOT_CAPACITY) - ((some 0 : Option Nat)).getD 1500)).map
            Key.slotKey) ∧
      (¬ wsub 2000 (((some 0 : Option Nat)).getD 1500) ≥ PRUNING_BOUND →
        (check_equivocation_abs (fun n => n)
            (⟨fun _ => none, some 0⟩ : StoreA Nat Nat) 2000 1500 0 0).store.start =
            some (((some 0 : Option Nat)).getD 1500) ∧
          (check_equivocation_abs (fun n => n)
            (⟨fun _ => none, some 0⟩ : StoreA Nat Nat) 2000 1500 0 0).deletedKeys =
            []) :=
  c3_pruning_watermark_and_keys (fun n => n) ⟨fun _ => none, some 0⟩ 2000 1500 0 0
    (by rfl)

/-- C9: for a call with `slot <= slot_now` (in `u64` range) that reaches the
recording step, the recorded slot's key is never among the keys deleted in the
same call, and whenever pruning triggers the slot is at least the new
watermark `slot_now - MAX_SLOT_CAPACITY` (guaranteed by the age check). -/
theorem c9_recorded_slot_not_pruned {H P : Type} [DecidableEq P] (hash : H → Nat)
    (σ : StoreA H P) (t s : Nat) (h : H) (p : P)
    (hts : s ≤ t) (ht : t < U64)
    (hrec : (check_equivocation_abs hash σ t s h p).insertCalled = true) :
    Key.slotKey s ∉ (check_equivocation_abs hash σ t s h p).deletedKeys ∧
      (wsub t ((σ.start).getD s) ≥ PRUNING_BOUND → t - MAX_SLOT_CAPACITY ≤ s) := by
  obtain ⟨hage, hsc⟩ := (insertCalled_iff hash σ t s h p).1 hrec
  have hge : t - MAX_SLOT_CAPACITY ≤ s := slot_ge_new ht hage
  rw [check_abs_insert hash σ t s h p hage hsc]
  refine ⟨?_, fun _ => hge⟩
  show Key.slotKey s ∉
    (if wsub t ((σ.start).getD s) ≥ PRUNING_BOUND then
      (List.range' ((σ.start).getD s)
        ((t - MAX_SLOT_CAPACITY) - (σ.start).getD s)).map Key.slotKey
    else [])
  split
  · apply slotKey_not_deleted
    intro hc
    omega
  · simp

/-- Witness for C9 on a pruning call. -/
theorem c9_recorded_slot_not_pruned_witness :
    Key.slotKey 1500 ∉
        (check_equivocation_abs (fun n => n)
          (⟨fun _ => none, some 0⟩ : StoreA Nat Nat) 2000 1500 0 0).deletedKeys ∧
      (wsub 2000 (((some 0 : Option Nat)).getD 1500) ≥ PRUNING_BOUND →
        2000 - MAX_SLOT_CAPACITY ≤ 1500) :=
  c9_recorded_slot_not_pruned (fun n => n) ⟨fun _ => none, some 0⟩ 2000 1500 0 0
    (by decide) (by decide) (by rfl)

/-- C10: under the preconditions `slot <= slot_now` and stored watermark
`<= slot_now` (with `slot_now` in `u64` range), neither of the two `u64`
subtractions performed by `check_equivocation` underflows: each wrapped
difference equals the exact difference; and, without the preconditions, the
wrapped subtraction deviates from the truncated difference (underflow). -/
theorem c10_no_underflow {H P : Type} (σ : StoreA H P) (t s : Nat)
    (ht : t < U64) (hts : s ≤ t)
    (hw : ∀ w, σ.start = some w → w ≤ t) :
    wsub t s = t - s ∧
      wsub t ((σ.start).getD s) = t - (σ.start).getD s ∧
      ∃ a b, a < U64 ∧ b < U64 ∧ a < b ∧ wsub a b ≠ a - b := by
  have hfss : (σ.start).getD s ≤ t := by
    rcases hst : σ.start with _ | w
    · simpa using hts
    · simpa using hw w hst
  exact ⟨wsub_eq_of_le hts ht, wsub_eq_of_le hfss ht,
    0, 1, by decide, by decide, by decide, by decide⟩

/-- Witness for C10 at a concrete store and times. -/
theorem c10_no_underflow_witness :
    wsub 10 4 = 10 - 4 ∧
      wsub 10 (((⟨fun _ => none, some 3⟩ : StoreA Nat Nat).start).getD 4) =
        10 - ((⟨fun _ => none, some 3⟩ : StoreA Nat Nat).start).getD 4 ∧
      ∃ a b, a < U64 ∧ b < U64 ∧ a < b ∧ wsub a b ≠ a - b :=
  c10_no_underflow (⟨fun _ => none, some 3⟩ : StoreA Nat Nat) 10 4 (by decide)
    (by decide) (fun w hweq => by injection hweq with hx; omega)

/-- C7 counterexample: with stored watermark 2500 and a recording call at
`slot_now = slot = 2400`, the pruning subtraction `2400 - 2500` wraps, the
pruning branch fires, and the watermark written is `1400`, strictly below
the `2500` that was read: the watermark decreases. -/
theorem c7_counterexample :
    ((⟨fun _ => none, some 2500⟩ : StoreA Nat Nat).start = some 2500) ∧
      (check_equivocation_abs (fun n => n)
        (⟨fun _ => none, some 2500⟩ : StoreA Nat Nat) 2400 2400 0 0).insertCalled =
        true ∧
      (check_equivocation_abs (fun n => n)
        (⟨fun _ => none, some 2500⟩ : StoreA Nat Nat) 2400 2400 0 0).store.start =
        some 1400 ∧
      ¬ (2500 : Nat) ≤ 1400 :=
  ⟨rfl, rfl, rfl, by decide⟩

/-- C7 (amended): provided the watermark read at the start of the call is at
most `slot_now` (and `slot_now` is a `u64` value), every call that reaches the
recording step writes a watermark at least the value read (or the defaulted
first slot on a cold store): the watermark never decreases. -/
theorem c7_watermark_monotone {H P : Type} [DecidableEq P] (hash : H → Nat)
    (σ : StoreA H P) (t s : Nat) (h : H) (p : P)
    (ht : t < U64)
    (hw : ∀ w, σ.start = some w → w ≤ t)
    (hrec : (check_equivocation_abs hash σ t s h p).insertCalled = true) :
    ∃ nw, (check_equivocation_abs hash σ t s h p).store.start = some nw ∧
      (σ.start).getD s ≤ nw := by
  obtain ⟨hage, hsc⟩ := (insertCalled_iff hash σ t s h p).1 hrec
  rw [check_abs_insert hash σ t s h p hage hsc]
  refine ⟨_, rfl, ?_⟩
  split
  · rename_i hpb
    rcases hst : σ.start with _ | w
    · rw [hst] at hpb
      simp only [Option.getD_none] at hpb
      simp only [GT.gt, not_lt, PRUNING_BOUND, MAX_SLOT_CAPACITY] at hage hpb
      omega
    · rw [hst] at hpb
      simp only [Option.getD_some] at hpb ⊢
      have hwt : w ≤ t := hw w hst
      rw [wsub_eq_of_le hwt ht] at hpb
      simp only [PRUNING_BOUND, MAX_SLOT_CAPACITY] at hpb ⊢
      omega
  · exact le_refl _

/-- Witness for the amended C7 on a small non-pruning call. -/
theorem c7_watermark_monotone_witness :
    ∃ nw,
      (check_equivocation_abs (fun n => n)
        (⟨fun _ => none, some 5⟩ : StoreA Nat Nat) 10 7 0 0).store.start =
        some nw ∧
      ((⟨fun _ => none, some 5⟩ : StoreA Nat Nat).start).getD 7 ≤ nw :=
  c7_watermark_monotone (fun n => n) ⟨fun _ => none, some 5⟩ 10 7 0 0 (by decide)
    (fun w hweq => by injection hweq with hx; omega) (by rfl)

/-- Strong reachability invariant backing the amended C6: in any store
reachable by calls whose slot is at least the current watermark, every slot
holding a nonempty entry list lies at or above the (then set) watermark. -/
theorem reachableW_inv {H P : Type} [DecidableEq P] (hash : H → Nat)
    (σ : StoreA H P) (hreach : ReachableW hash σ) :
    ∀ u l, σ.slots u = some l → l ≠ [] → ∃ w, σ.start = some w ∧ w ≤ u := by
  induction hreach with
  | empty =>
    intro u l hu _
    exact absurd hu (by simp [StoreA.empty])
  | step σ t s h p hr ht hws ih =>
    intro u l hu hne
    by_cases hage : wsub t s > MAX_SLOT_CAPACITY
    · simp only [check_abs_age hash σ t s h p hage] at hu ⊢
      exact ih u l hu hne
    · rcases hsc : scanHeaders hash s h p ((σ.slots s).getD []) with _ | r
      · simp only [check_abs_insert hash σ t s h p hage hsc] at hu ⊢
        by_cases hmem : Key.slotKey u ∈
            (if wsub t ((σ.start).getD s) ≥ PRUNING_BOUND then
              (List.range' ((σ.start).getD s)
                ((t - MAX_SLOT_CAPACITY) - (σ.start).getD s)).map Key.slotKey
            else [])
        · rw [if_pos hmem] at hu
          exact absurd hu (by simp)
        · rw [if_neg hmem] at hu
          refine ⟨_, rfl, ?_⟩
          by_cases h2 : u = s
          · subst h2
            split
            · exact slot_ge_new ht hage
            · rcases hst : σ.start with _ | w0
              · simp
              · simpa using hws w0 hst
          · rw [if_neg h2] at hu
            obtain ⟨w0, hw0, hwu⟩ := ih u l hu hne
            split
            · rename_i hpb
              rw [if_pos hpb] at hmem
              rw [hw0] at hmem
              simp only [Option.getD_some] at hmem
              by_contra hlt
              push_neg at hlt
              exact hmem (List.mem_map.2
                ⟨u, List.mem_range'_1.2 ⟨hwu, by omega⟩, rfl⟩)
            · rw [hw0]
              simpa using hwu
      · simp only [check_abs_scan_some hash σ t s h p r hage hsc] at hu ⊢
        exact ih u l hu hne

/-- C6 (amended): in every store reachable from the empty store by successful
calls each of whose slot is at least the stored watermark at call time (and
with `slot_now` in `u64` range), the stored watermark, when set, is at most
every slot currently holding a nonempty entry list. -/
theorem c6_watermark_lower_bound {H P : Type} [DecidableEq P] (hash : H → Nat)
    (σ : StoreA H P) (hreach : ReachableW hash σ) (w : Nat) (hw : σ.start = some w)
    (u : Nat) (l : List (H × P)) (hu : σ.slots u = some l) (hne : l ≠ []) :
    w ≤ u := by
  obtain ⟨w2, hw2, hle⟩ := reachableW_inv hash σ hreach u l hu hne
  rw [hw] at hw2
  injection hw2 with he
  omega

/-- Witness for the amended C6 after one recording call from the empty store. -/
theorem c6_watermark_lower_bound_witness :
    (2500 : Nat) ≤ 2500 ∧
      (check_equivocation_abs (fun n => n) (StoreA.empty : StoreA Nat Nat)
          3000 2500 0 0).store.start = some 2500 ∧
      (check_equivocation_abs (fun n => n) (StoreA.empty : StoreA Nat Nat)
          3000 2500 0 0).store.slots 2500 = some [(0, 0)] := by
  have hreach : ReachableW (fun n => n)
      ((check_equivocation_abs (fun n => n) (StoreA.empty : StoreA Nat Nat)
        3000 2500 0 0).store) :=
    ReachableW.step StoreA.empty 3000 2500 0 0 ReachableW.empty (by decide)
      (fun w hw => by simp [StoreA.empty] at hw)
  exact ⟨c6_watermark_lower_bound (fun n => n) _ hreach 2500 (by rfl) 2500
      [(0, 0)] (by rfl) (by decide), by rfl, by rfl⟩

/-- C6 counterexample: two successful calls from the empty store (first at
slot 2500, then at the older slot 2000, both within the age bound at time
3000) leave a nonempty entry list at slot 2000 while the stored watermark is
2500: the claimed invariant fails on a reachable store. -/
theorem c6_counterexample :
    (check_equivocation_abs (fun n => n) (StoreA.empty : StoreA Nat Nat)
        3000 2500 0 0).result = none ∧
      (check_equivocation_abs (fun n => n)
        (check_equivocation_abs (fun n => n) (StoreA.empty : StoreA Nat Nat)
          3000 2500 0 0).store 3000 2000 1 0).result = none ∧
      (check_equivocation_abs (fun n => n)
        (check_equivocation_abs (fun n => n) (StoreA.empty : StoreA Nat Nat)
          3000 2500 0 0).store 3000 2000 1 0).store.start = some 2500 ∧
      (check_equivocation_abs (fun n => n)
        (check_equivocation_abs (fun n => n) (StoreA.empty : StoreA Nat Nat)
          3000 2500 0 0).store 3000 2000 1 0).store.slots 2000 = some [(1, 0)] ∧
      ¬ (2500 : Nat) ≤ 2000 :=
  ⟨rfl, rfl, rfl, rfl, by decide⟩
